import Mathlib

/-!
Verification development for `src/store-provider.js`, a key-value storage
facade with memory / localStorage / sessionStorage backends, prefix-derived
keys, JSON-serialized values, and probe-based fallback to memory.

The JavaScript code is shallowly embedded: the mutable `Map` / `Storage`
objects become explicit `Store` values (`String → Option String`) threaded
through the operations, platform `Storage` objects that may throw on
`setItem` / `removeItem` are modelled by boolean failure flags, and calls
that can throw return `Except`.  The platform builtins `JSON.stringify` /
`JSON.parse` are modelled by an executable serializer and parser over a
`Json` value type; numbers are modelled as integers (the exact fragment the
serializer emits), and the parser is strict (it does not model whitespace
between tokens, which the serializer never produces).
-/

/-- A JSON-serializable JavaScript value: the argument/result type of
`setValue` / `getValue`.  `str` also represents the raw-string results of the
permissive read path. -/
inductive Json where
  | null : Json
  | bool (b : Bool) : Json
  | num (n : Int) : Json
  | str (s : String) : Json
  | arr (elems : List Json) : Json
  | obj (fields : List (String × Json)) : Json

/-- Decimal digit characters of `n`, most significant first, as
`JSON.stringify` prints a nonnegative integer. -/
def natToDigits (n : Nat) : List Char :=
  if _hn : n = 0 then ['0']
  else ((Nat.digits 10 n).map Nat.digitChar).reverse

/-- Modelled from the ECMAScript builtin: how `JSON.stringify` prints an
integer (optional minus sign, then decimal digits). -/
def serInt (n : Int) : List Char :=
  if n < 0 then '-' :: natToDigits n.natAbs else natToDigits n.natAbs

/-- Modelled from the ECMAScript builtin: `JSON.stringify`'s escaping of one
character inside a string literal (`"`, `\`, the five short escapes, and
`\u00XX` for the remaining control characters). -/
def escapeChar (c : Char) : List Char :=
  if c = '"' then ['\\', '"']
  else if c = '\\' then ['\\', '\\']
  else if c = Char.ofNat 8 then ['\\', 'b']
  else if c = '\t' then ['\\', 't']
  else if c = '\n' then ['\\', 'n']
  else if c = Char.ofNat 12 then ['\\', 'f']
  else if c = '\r' then ['\\', 'r']
  else if c.toNat < 32 then
    '\\' :: 'u' :: '0' :: '0' :: Nat.digitChar (c.toNat / 16) :: [Nat.digitChar (c.toNat % 16)]
  else [c]

/-- Escape every character of a string body. -/
def escapeList (l : List Char) : List Char := (l.map escapeChar).flatten

/-- A JSON string literal: opening quote, escaped body, closing quote. -/
def quoteStr (s : String) : List Char := '"' :: (escapeList s.data ++ ['"'])

mutual
/-- Modelled from the ECMAScript builtin: `JSON.stringify` without spacing,
restricted to the `Json` fragment. -/
def serJson : Json → List Char
  | .null => "null".data
  | .bool true => "true".data
  | .bool false => "false".data
  | .num n => serInt n
  | .str s => quoteStr s
  | .arr l => '[' :: (serElems l ++ [']'])
  | .obj l => '\x7b' :: (serFields l ++ ['\x7d'])
/-- Comma-separated serialized array elements. -/
def serElems : List Json → List Char
  | [] => []
  | [v] => serJson v
  | v :: l => serJson v ++ ',' :: serElems l
/-- Comma-separated serialized object members. -/
def serFields : List (String × Json) → List Char
  | [] => []
  | [(k, v)] => quoteStr k ++ ':' :: serJson v
  | (k, v) :: l => quoteStr k ++ ':' :: serJson v ++ ',' :: serFields l
end

/-- The string `JSON.stringify(value)` (the facade's `#serialize`). -/
def serialize (v : Json) : String := ⟨serJson v⟩

/-- Insignificant whitespace accepted by `JSON.parse` around a document
(space, tab, line feed, carriage return). -/
def isJsonWs (c : Char) : Bool :=
  c.toNat = 32 || c.toNat = 9 || c.toNat = 10 || c.toNat = 13

/-- Value of a hexadecimal digit character, as accepted after `\u`: decimal
digits, then lowercase and uppercase letter digits, by code point. -/
def hexVal (c : Char) : Option Nat :=
  let n := c.toNat
  if 48 ≤ n ∧ n ≤ 57 then some (n - 48)
  else if 97 ≤ n ∧ n ≤ 102 then some (n - 87)
  else if 65 ≤ n ∧ n ≤ 70 then some (n - 55)
  else none

/-- The character denoted by a one-letter JSON escape sequence. -/
def unescapeChar (e : Char) : Option Char :=
  if e = '"' then some '"'
  else if e = '\\' then some '\\'
  else if e = '/' then some '/'
  else if e = 'b' then some (Char.ofNat 8)
  else if e = 'f' then some (Char.ofNat 12)
  else if e = 'n' then some '\n'
  else if e = 'r' then some '\r'
  else if e = 't' then some '\t'
  else none

/-- Parse the body of a JSON string after the opening quote, accumulating
decoded characters in reverse; stops at the closing quote.  Raw control
characters are rejected, as `JSON.parse` rejects them. -/
def parseStringAux (acc : List Char) : List Char → Option (String × List Char)
  | [] => none
  | '\\' :: 'u' :: a :: b :: c2 :: d :: cs =>
    match hexVal a, hexVal b, hexVal c2, hexVal d with
    | some va, some vb, some vc, some vd =>
      parseStringAux (Char.ofNat (((va * 16 + vb) * 16 + vc) * 16 + vd) :: acc) cs
    | _, _, _, _ => none
  | '\\' :: e :: cs =>
    match unescapeChar e with
    | some c' => parseStringAux (c' :: acc) cs
    | none => none
  | ['\\'] => none
  | c :: cs =>
    if c = '"' then some (⟨acc.reverse⟩, cs)
    else if c.toNat < 32 then none
    else parseStringAux (c :: acc) cs

/-- Greedily consume decimal digits after the first, accumulating a value. -/
def parseDigitsAux : List Char → Nat → Nat × List Char
  | [], acc => (acc, [])
  | c :: cs, acc =>
    if c.isDigit then parseDigitsAux cs (acc * 10 + (c.toNat - 48))
    else (acc, c :: cs)

/-- A run of one or more decimal digits and its value. -/
def parseDigits : List Char → Option (Nat × List Char)
  | [] => none
  | c :: cs =>
    if c.isDigit then some (parseDigitsAux cs (c.toNat - 48)) else none

mutual
/-- Modelled from the ECMAScript builtin: one `JSON.parse` value (integer
numeric fragment, no whitespace between tokens), by recursion on `fuel`. -/
def parseVal : Nat → List Char → Option (Json × List Char)
  | 0, _ => none
  | fuel + 1, cs =>
    match cs with
    | [] => none
    | c :: cs' =>
      if c = 'n' then
        match cs' with
        | 'u' :: 'l' :: 'l' :: rest => some (.null, rest)
        | _ => none
      else if c = 't' then
        match cs' with
        | 'r' :: 'u' :: 'e' :: rest => some (.bool true, rest)
        | _ => none
      else if c = 'f' then
        match cs' with
        | 'a' :: 'l' :: 's' :: 'e' :: rest => some (.bool false, rest)
        | _ => none
      else if c = '"' then
        match parseStringAux [] cs' with
        | some (s, rest) => some (.str s, rest)
        | none => none
      else if c = '[' then
        match cs' with
        | [] => none
        | c2 :: cs2 =>
          if c2 = ']' then some (.arr [], cs2)
          else
            match parseElems fuel (c2 :: cs2) with
            | some (l, rest) => some (.arr l, rest)
            | none => none
      else if c = '\x7b' then
        match cs' with
        | [] => none
        | c2 :: cs2 =>
          if c2 = '\x7d' then some (.obj [], cs2)
          else
            match parseFields fuel (c2 :: cs2) with
            | some (l, rest) => some (.obj l, rest)
            | none => none
      else if c = '-' then
        match parseDigits cs' with
        | some (m, rest) => some (.num (-(m : Int)), rest)
        | none => none
      else if c.isDigit then
        match parseDigits (c :: cs') with
        | some (m, rest) => some (.num (m : Int), rest)
        | none => none
      else none
/-- One or more comma-separated values, then the closing `]`. -/
def parseElems : Nat → List Char → Option (List Json × List Char)
  | 0, _ => none
  | fuel + 1, cs =>
    match parseVal fuel cs with
    | none => none
    | some (v, r) =>
      match r with
      | ',' :: r' =>
        match parseElems fuel r' with
        | some (l, r'') => some (v :: l, r'')
        | none => none
      | ']' :: r' => some ([v], r')
      | _ => none
/-- One or more comma-separated `"key":value` members, then the closing brace. -/
def parseFields : Nat → List Char → Option (List (String × Json) × List Char)
  | 0, _ => none
  | fuel + 1, cs =>
    match cs with
    | '"' :: r =>
      match parseStringAux [] r with
      | some (k, r1) =>
        match r1 with
        | ':' :: r2 =>
          match parseVal fuel r2 with
          | some (v, r3) =>
            match r3 with
            | ',' :: r4 =>
              match parseFields fuel r4 with
              | some (l, r5) => some ((k, v) :: l, r5)
              | none => none
            | '\x7d' :: r4 => some ([(k, v)], r4)
            | _ => none
          | none => none
        | _ => none
      | none => none
    | _ => none
end

/-- Modelled from the ECMAScript builtin: `JSON.parse` on a whole document
(`none` plays the role of a thrown `SyntaxError`). -/
def parseJson (s : String) : Option Json :=
  let cs := s.data.dropWhile isJsonWs
  match parseVal (cs.length + 1) cs with
  | some (v, rest) => if rest.dropWhile isJsonWs = [] then some v else none
  | none => none

/-- The raw key-to-string mapping of a backend (a `Map` or a `Storage`'s
contents), with `none` for an absent key. -/
def Store : Type := String → Option String

/-- The fresh empty `Map` produced by the `memory` factory. -/
def emptyStore : Store := fun _ => none

/-- `m.set(k, v)` / `storage.setItem(k, v)` on the raw mapping. -/
def storeSet (m : Store) (k v : String) : Store :=
  fun x => if x = k then some v else m x

/-- `m.delete(k)` / `storage.removeItem(k)` on the raw mapping. -/
def storeRemove (m : Store) (k : String) : Store :=
  fun x => if x = k then none else m x

/-- A platform web storage object (`window.localStorage` or
`window.sessionStorage`): its contents, plus whether its `setItem` /
`removeItem` throw (quota exhaustion, privacy mode, denial). -/
structure WebStorage where
  data : Store
  setThrows : Bool
  removeThrows : Bool

/-- The browser's two persistent stores, shared by every provider. -/
structure World where
  localStorage : WebStorage
  sessionStorage : WebStorage

/-- The execution environment the constructor observes: whether `window` is
undefined, and the persistent stores behind it. -/
structure Env where
  isServer : Bool
  world : World

/-- The three recognized backend kinds. -/
inductive StoreType where
  | memory
  | localStorage
  | sessionStorage
deriving DecidableEq

/-- The membership test `['memory','localStorage','sessionStorage'].includes`
combined with the `STORAGE_FACTORIES` key lookup. -/
def parseStoreType (s : String) : Option StoreType :=
  if s = "memory" then some .memory
  else if s = "localStorage" then some .localStorage
  else if s = "sessionStorage" then some .sessionStorage
  else none

/-- The constructor's second argument: a string, or any non-string value
(`typeof prefix !== 'string'`). -/
inductive PfxArg where
  | str (s : String)
  | nonString

/-- The two errors the constructor can throw: `Error` for an unsupported
storage type, `TypeError` for a non-string key prefix. -/
inductive ConstructError where
  | unsupportedType
  | pfxNotString
deriving DecidableEq

/-- Modelled from the ECMAScript builtin: the characters removed by
`String.prototype.trim` (WhiteSpace and LineTerminator code points). -/
def jsWhitespace (c : Char) : Bool :=
  let n := c.toNat
  n = 9 || n = 10 || n = 11 || n = 12 || n = 13 || n = 32 || n = 160 ||
  n = 0x1680 || (0x2000 ≤ n && n ≤ 0x200a) || n = 0x2028 || n = 0x2029 ||
  n = 0x202f || n = 0x205f || n = 0x3000 || n = 0xfeff

/-- `String.prototype.trim` on the underlying character list. -/
def jsTrimList (l : List Char) : List Char :=
  ((l.dropWhile jsWhitespace).reverse.dropWhile jsWhitespace).reverse

/-- `prefix.trim()`, as the constructor stores the key prefix. -/
def jsTrim (s : String) : String := ⟨jsTrimList s.data⟩

/-- The throwaway key `'__ws_test__'` used by the usability probe. -/
def probeKey : String := "__ws_test__"

/-- `#canUseWebStorage`: the probe write+delete succeeds iff neither
`setItem` nor `removeItem` throws. -/
def canUseWebStorage (ws : WebStorage) : Bool :=
  !ws.setThrows && !ws.removeThrows

/-- The probe's effect on the probed storage: nothing if `setItem` threw, a
leftover `'__ws_test__'` entry if only `removeItem` threw, and a removed
`'__ws_test__'` key if both calls succeeded. -/
def probeEffect (ws : WebStorage) : WebStorage :=
  if ws.setThrows then ws
  else if ws.removeThrows then { ws with data := storeSet ws.data probeKey "1" }
  else { ws with data := storeRemove (storeSet ws.data probeKey "1") probeKey }

/-- A constructed `StoreProvider` instance: the backend kind selected by
`#initStorage` (after SSR forcing and probe fallback), the trimmed key
prefix, the environment flag, and the instance's own in-memory `Map`
(meaningful exactly when `storeType = memory`). -/
structure ProviderState where
  storeType : StoreType
  pfx : String
  isServer : Bool
  memStore : Store

/-- The `StoreProvider` constructor plus `#initStorage`: validates the
options, trims the prefix, forces `memory` on the server, instantiates the
backend, probes a persistent backend and falls back to a fresh memory map if
the probe throws.  Returns the constructed instance and the world after the
probe's side effect. -/
def construct (env : Env) (storeTypeArg : String) (pfxArg : PfxArg) :
    Except ConstructError (ProviderState × World) :=
  match parseStoreType storeTypeArg with
  | none => .error .unsupportedType
  | some st0 =>
    match pfxArg with
    | .nonString => .error .pfxNotString
    | .str p =>
      let pfx := jsTrim p
      let srv := env.isServer
      let st1 := if srv && !(st0 == StoreType.memory) then StoreType.memory else st0
      match st1 with
      | .memory => .ok (⟨.memory, pfx, srv, emptyStore⟩, env.world)
      | .localStorage =>
        let ws := env.world.localStorage
        let w' : World := { env.world with localStorage := probeEffect ws }
        if canUseWebStorage ws then
          .ok (⟨.localStorage, pfx, srv, emptyStore⟩, w')
        else
          .ok (⟨.memory, pfx, srv, emptyStore⟩, w')
      | .sessionStorage =>
        let ws := env.world.sessionStorage
        let w' : World := { env.world with sessionStorage := probeEffect ws }
        if canUseWebStorage ws then
          .ok (⟨.sessionStorage, pfx, srv, emptyStore⟩, w')
        else
          .ok (⟨.memory, pfx, srv, emptyStore⟩, w')

/-- `#getKey`: no key (or the falsy empty-string key) yields the prefix
itself; otherwise `prefix:key` when the prefix is truthy, else the raw key. -/
def getKey (st : ProviderState) (key : Option String) : String :=
  match key with
  | none => st.pfx
  | some k =>
    if k = "" then st.pfx
    else if st.pfx ≠ "" then st.pfx ++ ":" ++ k else k

/-- `#deserialize`: `null` for an absent value; otherwise `JSON.parse`, with
the raw string returned unchanged if parsing throws. -/
def deserialize (raw : Option String) : Json :=
  match raw with
  | none => .null
  | some r =>
    match parseJson r with
    | some v => v
    | none => .str r

/-- The adapter's `getRaw` (`m.get(key) ?? null` / `s.getItem(key)`), in
state-passing form: it returns the read value and the (unchanged) states it
produces. -/
def adapterGetRaw (st : ProviderState) (w : World) (k : String) :
    Option String × ProviderState × World :=
  match st.storeType with
  | .memory => (st.memStore k, st, w)
  | .localStorage => (w.localStorage.data k, st, w)
  | .sessionStorage => (w.sessionStorage.data k, st, w)

/-- The adapter's `setRaw` (`m.set` / `s.setItem`); a web backend's
`setItem` may throw. -/
def adapterSetRaw (st : ProviderState) (w : World) (k raw : String) :
    Except Unit (ProviderState × World) :=
  match st.storeType with
  | .memory => .ok ({ st with memStore := storeSet st.memStore k raw }, w)
  | .localStorage =>
    if w.localStorage.setThrows then .error ()
    else .ok (st, { w with localStorage :=
      { w.localStorage with data := storeSet w.localStorage.data k raw } })
  | .sessionStorage =>
    if w.sessionStorage.setThrows then .error ()
    else .ok (st, { w with sessionStorage :=
      { w.sessionStorage with data := storeSet w.sessionStorage.data k raw } })

/-- The adapter's `remove` (`m.delete` / `s.removeItem`); a web backend's
`removeItem` may throw. -/
def adapterRemove (st : ProviderState) (w : World) (k : String) :
    Except Unit (ProviderState × World) :=
  match st.storeType with
  | .memory => .ok ({ st with memStore := storeRemove st.memStore k }, w)
  | .localStorage =>
    if w.localStorage.removeThrows then .error ()
    else .ok (st, { w with localStorage :=
      { w.localStorage with data := storeRemove w.localStorage.data k } })
  | .sessionStorage =>
    if w.sessionStorage.removeThrows then .error ()
    else .ok (st, { w with sessionStorage :=
      { w.sessionStorage with data := storeRemove w.sessionStorage.data k } })

/-- `setValue(key, value)`: serialize and write under the derived key. -/
def setValue (st : ProviderState) (w : World) (key : String) (v : Json) :
    Except Unit (ProviderState × World) :=
  adapterSetRaw st w (getKey st (some key)) (serialize v)

/-- `getValue(key)` in state-passing form: the decoded result together with
the states the call leaves behind. -/
def getValueS (st : ProviderState) (w : World) (key : String) :
    Json × ProviderState × World :=
  let r := adapterGetRaw st w (getKey st (some key))
  (deserialize r.1, r.2)

/-- `getValue(key)`: the value returned to the caller. -/
def getValue (st : ProviderState) (w : World) (key : String) : Json :=
  (getValueS st w key).1

/-- `removeValue(key)`: delete the entry under the derived key. -/
def removeValue (st : ProviderState) (w : World) (key : String) :
    Except Unit (ProviderState × World) :=
  adapterRemove st w (getKey st (some key))

/-- A list that does not begin with a decimal digit: a remainder that cannot
extend a serialized number. -/
def nonDigitHead : List Char → Bool
  | [] => true
  | c :: _ => !c.isDigit

/-- A fully functional empty web storage object. -/
def okWeb : WebStorage := ⟨emptyStore, false, false⟩

/-- A web storage object whose `setItem` throws (quota denial). -/
def brokenWeb : WebStorage := ⟨emptyStore, true, false⟩

/-- A browser world with two working empty stores. -/
def okWorld : World := ⟨okWeb, okWeb⟩

/-- A browser environment with working storage. -/
def okEnv : Env := ⟨false, okWorld⟩

/-- A browser environment whose `localStorage` rejects the probe write. -/
def brokenEnv : Env := ⟨false, ⟨brokenWeb, okWeb⟩⟩

/-- A concrete memory-backed provider instance with prefix `"t"`. -/
def memProvider : ProviderState := ⟨.memory, "t", false, emptyStore⟩

/-- A concrete memory-backed provider whose store holds the non-JSON raw
string `"hello"` under the derived key `"t:k"`. -/
def rawProvider : ProviderState :=
  ⟨.memory, "t", false, storeSet emptyStore "t:k" "hello"⟩

/-- A decimal digit character carries its value, is a digit, and is none of
the characters that open another kind of JSON token. -/
theorem digitChar_facts : ∀ d : Nat, d < 10 →
    (Nat.digitChar d).isDigit = true ∧
    (Nat.digitChar d).toNat - 48 = d ∧
    isJsonWs (Nat.digitChar d) = false ∧
    Nat.digitChar d ≠ '-' ∧ Nat.digitChar d ≠ 'n' ∧ Nat.digitChar d ≠ 't' ∧
    Nat.digitChar d ≠ 'f' ∧ Nat.digitChar d ≠ '"' ∧ Nat.digitChar d ≠ '[' ∧
    Nat.digitChar d ≠ '\x7b' ∧ Nat.digitChar d ≠ ']' ∧ Nat.digitChar d ≠ '\x7d' := by
  decide

/-- A hexadecimal digit character carries its value back through `hexVal`. -/
theorem hexVal_digitChar : ∀ m : Nat, m < 16 → hexVal (Nat.digitChar m) = some m := by
  decide

/-- Every character of a printed numeral is a decimal digit. -/
theorem natToDigits_all_digits (n : Nat) :
    ∀ c ∈ natToDigits n, c.isDigit = true := by
  intro c hc
  unfold natToDigits at hc
  by_cases h : n = 0
  · rw [dif_pos h] at hc
    simp only [List.mem_singleton] at hc
    subst hc; decide
  · rw [dif_neg h, List.mem_reverse] at hc
    obtain ⟨d, hd, rfl⟩ := List.mem_map.mp hc
    exact (digitChar_facts d (Nat.digits_lt_base (by norm_num) hd)).1

/-- A printed numeral is never empty. -/
theorem natToDigits_ne_nil (n : Nat) : natToDigits n ≠ [] := by
  unfold natToDigits
  by_cases h : n = 0
  · simp [h]
  · simp [h, Nat.digits_ne_nil_iff_ne_zero.mpr h]

/-- A printed numeral starts with a digit character, which can open only the
numeric alternative of the JSON grammar. -/
theorem natToDigits_head (n : Nat) :
    ∃ c t, natToDigits n = c :: t ∧ c.isDigit = true ∧ isJsonWs c = false ∧
      c ≠ '-' ∧ c ≠ 'n' ∧ c ≠ 't' ∧ c ≠ 'f' ∧ c ≠ '"' ∧ c ≠ '[' ∧ c ≠ '\x7b' ∧
      c ≠ ']' ∧ c ≠ '\x7d' := by
  cases hds : natToDigits n with
  | nil => exact absurd hds (natToDigits_ne_nil n)
  | cons c t =>
    have hc : c.isDigit = true :=
      natToDigits_all_digits n c (by rw [hds]; exact List.mem_cons_self c t)
    refine ⟨c, t, rfl, hc, ?_⟩
    have h09 : '0' ≤ c ∧ c ≤ '9' := by
      simpa [Char.isDigit, Bool.and_eq_true, decide_eq_true_eq] using hc
    have hv : 48 ≤ c.toNat ∧ c.toNat ≤ 57 := by
      obtain ⟨h1, h2⟩ := h09
      exact ⟨h1, h2⟩
    have hne : ∀ x : Char, c.toNat ≠ x.toNat → c ≠ x := by
      intro x hx he; exact hx (by rw [he])
    refine ⟨?_, ?_, ?_, ?_, ?_, ?_, ?_, ?_, ?_, ?_⟩
    · simp only [isJsonWs, Bool.or_eq_false_iff, decide_eq_false_iff_not]
      omega
    · exact hne '-' (by rw [show ('-').toNat = 45 from rfl]; omega)
    · exact hne 'n' (by rw [show ('n').toNat = 110 from rfl]; omega)
    · exact hne 't' (by rw [show ('t').toNat = 116 from rfl]; omega)
    · exact hne 'f' (by rw [show ('f').toNat = 102 from rfl]; omega)
    · exact hne '"' (by rw [show ('"').toNat = 34 from rfl]; omega)
    · exact hne '[' (by rw [show ('[').toNat = 91 from rfl]; omega)
    · exact hne '\x7b' (by rw [show ('\x7b').toNat = 123 from rfl]; omega)
    · exact hne ']' (by rw [show (']').toNat = 93 from rfl]; omega)
    · exact hne '\x7d' (by rw [show ('\x7d').toNat = 125 from rfl]; omega)

/-- `parseDigitsAux` consumes exactly a digit run, folding in its value, and
stops at a remainder that does not start with a digit. -/
theorem parseDigitsAux_spec : ∀ (ds rest : List Char) (acc : Nat),
    (∀ c ∈ ds, c.isDigit = true) → nonDigitHead rest = true →
    parseDigitsAux (ds ++ rest) acc
      = (ds.foldl (fun a c => a * 10 + (c.toNat - 48)) acc, rest) := by
  intro ds
  induction ds with
  | nil =>
    intro rest acc _ hrest
    cases rest with
    | nil => simp [parseDigitsAux]
    | cons c cs =>
      simp only [nonDigitHead, Bool.not_eq_true'] at hrest
      simp [parseDigitsAux, hrest]
  | cons c ds ih =>
    intro rest acc hds hrest
    have hc : c.isDigit = true := hds c (List.mem_cons_self c ds)
    simp only [List.cons_append, parseDigitsAux, hc, if_true, List.foldl_cons]
    exact ih rest _ (fun x hx => hds x (List.mem_cons_of_mem c hx)) hrest

/-- Folding base-10 accumulation over a digit list is positional evaluation. -/
theorem foldl_mul_add (bs : List Nat) : ∀ acc : Nat,
    bs.foldl (fun a d => a * 10 + d) acc
      = acc * 10 ^ bs.length + Nat.ofDigits 10 bs.reverse := by
  induction bs with
  | nil => intro acc; simp [Nat.ofDigits]
  | cons d bs ih =>
    intro acc
    rw [List.foldl_cons, ih, List.reverse_cons, Nat.ofDigits_append]
    simp only [Nat.ofDigits_singleton, List.length_reverse, List.length_cons, pow_succ]
    ring

/-- Positional evaluation of a printed numeral recovers the number. -/
theorem foldl_natToDigits (n : Nat) :
    (natToDigits n).foldl (fun a c => a * 10 + (c.toNat - 48)) 0 = n := by
  unfold natToDigits
  by_cases h : n = 0
  · rw [dif_pos h]; subst h; decide
  · rw [dif_neg h, ← List.map_reverse, List.foldl_map]
    have hext : List.foldl (fun (a d : Nat) => a * 10 + ((Nat.digitChar d).toNat - 48)) 0
        ((Nat.digits 10 n).reverse)
        = List.foldl (fun a d => a * 10 + d) 0 ((Nat.digits 10 n).reverse) := by
      apply List.foldl_ext
      intro a d hd
      rw [(digitChar_facts d (Nat.digits_lt_base (by norm_num) (List.mem_reverse.mp hd))).2.1]
    rw [hext, foldl_mul_add]
    simp [Nat.ofDigits_digits]

/-- The digit-run parser inverts numeral printing, given a remainder that
cannot extend the numeral. -/
theorem parseDigits_natToDigits (n : Nat) (rest : List Char)
    (hrest : nonDigitHead rest = true) :
    parseDigits (natToDigits n ++ rest) = some (n, rest) := by
  obtain ⟨c, t, hct, hc, -⟩ := natToDigits_head n
  have hall : ∀ x ∈ t, x.isDigit = true := by
    intro x hx
    exact natToDigits_all_digits n x (by rw [hct]; exact List.mem_cons_of_mem c hx)
  have hf := foldl_natToDigits n
  rw [hct, List.foldl_cons] at hf
  rw [hct, List.cons_append]
  simp only [parseDigits, hc, if_true]
  rw [parseDigitsAux_spec t rest _ hall hrest]
  simp only [Nat.zero_mul, Nat.zero_add] at hf
  rw [hf]

/-- On an ordinary character (not a backslash), the string-body parser closes
at a quote, rejects a raw control character, and otherwise keeps scanning. -/
theorem parseStringAux_ordinary (c : Char) (acc cs : List Char) (h2 : c ≠ '\\') :
    parseStringAux acc (c :: cs) =
      (if c = '"' then some (⟨acc.reverse⟩, cs)
       else if c.toNat < 32 then none
       else parseStringAux (c :: acc) cs) := by
  rw [parseStringAux.eq_def]
  split <;> rename_i heq
  · exact absurd heq (by simp)
  · rw [List.cons.injEq] at heq
    exact absurd heq.1 h2
  · rw [List.cons.injEq] at heq
    exact absurd heq.1 h2
  · rw [List.cons.injEq] at heq
    exact absurd heq.1 h2
  · rw [List.cons.injEq] at heq
    rw [← heq.1, ← heq.2]

/-- Parsing one escaped character undoes `escapeChar`. -/
theorem escape_step (c : Char) (acc rest : List Char) :
    parseStringAux acc (escapeChar c ++ rest) = parseStringAux (c :: acc) rest := by
  unfold escapeChar
  split_ifs with h1 h2 h3 h4 h5 h6 h7 h8
  · subst h1; rfl
  · subst h2; rfl
  · subst h3; rfl
  · subst h4; rfl
  · subst h5; rfl
  · subst h6; rfl
  · subst h7; rfl
  · have hd1 : c.toNat / 16 < 16 := by omega
    have hd0 : c.toNat % 16 < 16 := by omega
    have h0 : hexVal '0' = some 0 := by decide
    simp only [List.cons_append, List.nil_append, parseStringAux, h0,
      hexVal_digitChar _ hd1, hexVal_digitChar _ hd0]
    rw [show ((0 * 16 + 0) * 16 + c.toNat / 16) * 16 + c.toNat % 16 = c.toNat by omega]
    rw [Char.ofNat_toNat]
    rfl
  · rw [List.singleton_append, parseStringAux_ordinary c acc rest h2,
      if_neg h1, if_neg h8]


/-- Parsing an escaped character run stops exactly at the closing quote and
recovers the original characters. -/
theorem escapeList_rt : ∀ (l acc rest : List Char),
    parseStringAux acc (escapeList l ++ '"' :: rest) = some (⟨acc.reverse ++ l⟩, rest) := by
  intro l
  induction l with
  | nil =>
    intro acc rest
    simp [escapeList, parseStringAux]
  | cons c l ih =>
    intro acc rest
    have hsplit : escapeList (c :: l) = escapeChar c ++ escapeList l := by
      simp [escapeList]
    rw [hsplit, List.append_assoc, escape_step, ih]
    simp

/-- The string-body parser inverts the serializer's quoting. -/
theorem parseStringAux_quote (s : String) (rest : List Char) :
    parseStringAux [] (escapeList s.data ++ '"' :: rest) = some (s, rest) := by
  rw [escapeList_rt]
  simp only [List.reverse_nil, List.nil_append]

/-- A serialized value is never the empty string. -/
theorem serJson_ne_nil (v : Json) : serJson v ≠ [] := by
  cases v with
  | null => simp [serJson]
  | bool b => cases b <;> simp [serJson]
  | num n =>
    by_cases h : n < 0
    · simp [serJson, serInt, h]
    · simpa [serJson, serInt, h] using natToDigits_ne_nil n.natAbs
  | str s => simp [serJson, quoteStr]
  | arr l => simp [serJson]
  | obj l => simp [serJson]

/-- A serialized value begins with a character that is not whitespace and
closes neither an array nor an object. -/
theorem serJson_head (v : Json) :
    ∃ c t, serJson v = c :: t ∧ isJsonWs c = false ∧ c ≠ ']' ∧ c ≠ '\x7d' := by
  cases v with
  | null => exact ⟨'n', "ull".data, rfl, by decide⟩
  | bool b =>
    cases b with
    | true => exact ⟨'t', "rue".data, rfl, by decide⟩
    | false => exact ⟨'f', "alse".data, rfl, by decide⟩
  | num n =>
    by_cases h : n < 0
    · exact ⟨'-', natToDigits n.natAbs, by simp [serJson, serInt, h], by decide⟩
    · obtain ⟨c, t, hct, -, hws, -, -, -, -, -, -, -, hr, hb⟩ := natToDigits_head n.natAbs
      exact ⟨c, t, by simp [serJson, serInt, h, hct], hws, hr, hb⟩
  | str s =>
    exact ⟨'"', escapeList s.data ++ ['"'], rfl, by decide⟩
  | arr l => exact ⟨'[', serElems l ++ [']'], rfl, by decide⟩
  | obj l => exact ⟨'\x7b', serFields l ++ ['\x7d'], rfl, by decide⟩

/-- A serialized nonempty element list starts with a character other than the
closing bracket. -/
theorem serElems_head (v : Json) (l : List Json) :
    ∃ c t, serElems (v :: l) = c :: t ∧ c ≠ ']' := by
  obtain ⟨c, t0, hct, -, hcr, -⟩ := serJson_head v
  cases l with
  | nil => exact ⟨c, t0, by simp [serElems, hct], hcr⟩
  | cons v2 l2 =>
    exact ⟨c, t0 ++ ',' :: serElems (v2 :: l2), by simp [serElems, hct], hcr⟩

/-- A serialized nonempty member list starts with the key's opening quote. -/
theorem serFields_head (k : String) (v : Json) (l : List (String × Json)) :
    ∃ t, serFields ((k, v) :: l) = '"' :: t := by
  cases l with
  | nil =>
    exact ⟨escapeList k.data ++ ['"'] ++ ':' :: serJson v, by simp [serFields, quoteStr]⟩
  | cons f2 l2 =>
    exact ⟨escapeList k.data ++ ['"'] ++ ':' :: serJson v ++ ',' :: serFields (f2 :: l2),
      by simp [serFields, quoteStr]⟩

/-- A value whose input starts with a digit parses through the numeric
alternative. -/
theorem parseVal_digit (fuel : Nat) (c : Char) (cs : List Char)
    (hd : c.isDigit = true) (hn : c ≠ 'n') (ht : c ≠ 't') (hf : c ≠ 'f') (hq : c ≠ '"')
    (hl : c ≠ '[') (hb : c ≠ '\x7b') (hm : c ≠ '-') :
    parseVal (fuel + 1) (c :: cs) =
      match parseDigits (c :: cs) with
      | some (m, rest) => some (.num (m : Int), rest)
      | none => none := by
  simp only [parseVal]
  rw [if_neg hn, if_neg ht, if_neg hf, if_neg hq, if_neg hl, if_neg hb, if_neg hm, if_pos hd]

/-- The array branch reduces to `parseElems` when the element list does not
open with the closing bracket. -/
theorem parseVal_arrCons (fuel : Nat) (c2 : Char) (cs2 : List Char) (hne : c2 ≠ ']') :
    parseVal (fuel + 1) ('[' :: c2 :: cs2) =
      match parseElems fuel (c2 :: cs2) with
      | some (l, rest) => some (.arr l, rest)
      | none => none := by
  have h0 : parseVal (fuel + 1) ('[' :: c2 :: cs2) =
      (if c2 = ']' then some (.arr [], cs2)
       else
         match parseElems fuel (c2 :: cs2) with
         | some (l, rest) => some (.arr l, rest)
         | none => none) := rfl
  rw [h0, if_neg hne]

/-- The object branch reduces to `parseFields` when the member list does not
open with the closing brace. -/
theorem parseVal_objCons (fuel : Nat) (c2 : Char) (cs2 : List Char) (hne : c2 ≠ '\x7d') :
    parseVal (fuel + 1) ('\x7b' :: c2 :: cs2) =
      match parseFields fuel (c2 :: cs2) with
      | some (l, rest) => some (.obj l, rest)
      | none => none := by
  have h0 : parseVal (fuel + 1) ('\x7b' :: c2 :: cs2) =
      (if c2 = '\x7d' then some (.obj [], cs2)
       else
         match parseFields fuel (c2 :: cs2) with
         | some (l, rest) => some (.obj l, rest)
         | none => none) := rfl
  rw [h0, if_neg hne]

/-- The codec round trip, by induction on parser fuel: with enough fuel, the
parser consumes exactly a serialized value (or element/member list) and
returns it, leaving any remainder that cannot extend a numeral. -/
theorem parseSer_all : ∀ fuel : Nat,
    (∀ (v : Json) (rest : List Char), (serJson v).length ≤ fuel →
       nonDigitHead rest = true →
       parseVal fuel (serJson v ++ rest) = some (v, rest)) ∧
    (∀ (l : List Json) (rest : List Char), l ≠ [] →
       (serElems l).length + 1 ≤ fuel →
       parseElems fuel (serElems l ++ ']' :: rest) = some (l, rest)) ∧
    (∀ (l : List (String × Json)) (rest : List Char), l ≠ [] →
       (serFields l).length + 1 ≤ fuel →
       parseFields fuel (serFields l ++ '\x7d' :: rest) = some (l, rest)) := by
  intro fuel
  induction fuel with
  | zero =>
    refine ⟨?_, ?_, ?_⟩
    · intro v rest hlen _
      have hpos : 0 < (serJson v).length := List.length_pos.mpr (serJson_ne_nil v)
      omega
    · intro l rest _ hlen
      omega
    · intro l rest _ hlen
      omega
  | succ fuel ih =>
    obtain ⟨ihA, ihB, ihC⟩ := ih
    refine ⟨?_, ?_, ?_⟩
    · intro v rest hlen hnd
      cases v with
      | null => rfl
      | bool b => cases b <;> rfl
      | num n =>
        by_cases hn : n < 0
        · have hser : serJson (.num n) = '-' :: natToDigits n.natAbs := by
            simp [serJson, serInt, hn]
          rw [hser, List.cons_append]
          have step : parseVal (fuel + 1) ('-' :: (natToDigits n.natAbs ++ rest)) =
              match parseDigits (natToDigits n.natAbs ++ rest) with
              | some (m, r) => some (.num (-(m : Int)), r)
              | none => none := rfl
          rw [step, parseDigits_natToDigits _ _ hnd]
          have hval : -((n.natAbs : Nat) : Int) = n := by omega
          simp only [hval]
        · obtain ⟨c, t, hct, hcd, -, hcm, hcn, hcht, hchf, hcq, hcl, hcb, -, -⟩ :=
            natToDigits_head n.natAbs
          have hser : serJson (.num n) = natToDigits n.natAbs := by
            simp [serJson, serInt, hn]
          rw [hser, hct, List.cons_append,
            parseVal_digit fuel c (t ++ rest) hcd hcn hcht hchf hcq hcl hcb hcm,
            ← List.cons_append, ← hct, parseDigits_natToDigits _ _ hnd]
          have hval : ((n.natAbs : Nat) : Int) = n := by omega
          simp only [hval]
      | str s =>
        have hser : serJson (.str s) = '"' :: (escapeList s.data ++ ['"']) := rfl
        rw [hser, List.cons_append, List.append_assoc, List.singleton_append]
        have step : parseVal (fuel + 1) ('"' :: (escapeList s.data ++ '"' :: rest)) =
            match parseStringAux [] (escapeList s.data ++ '"' :: rest) with
            | some (s', r) => some (.str s', r)
            | none => none := rfl
        rw [step, parseStringAux_quote]
      | arr l =>
        cases l with
        | nil => rfl
        | cons v l2 =>
          have hser : serJson (.arr (v :: l2)) = '[' :: (serElems (v :: l2) ++ [']']) := rfl
          obtain ⟨c2, t2, hct2, hne2⟩ := serElems_head v l2
          have hlen2 : (serElems (v :: l2)).length + 1 ≤ fuel := by
            rw [hser] at hlen
            simp only [List.length_cons, List.length_append, List.length_singleton] at hlen
            omega
          have harg : serJson (.arr (v :: l2)) ++ rest
              = '[' :: c2 :: (t2 ++ ']' :: rest) := by
            rw [hser, hct2]
            simp
          rw [harg, parseVal_arrCons fuel c2 (t2 ++ ']' :: rest) hne2]
          have hB := ihB (v :: l2) rest (by simp) hlen2
          rw [hct2, List.cons_append] at hB
          rw [hB]
      | obj l =>
        cases l with
        | nil => rfl
        | cons f l2 =>
          obtain ⟨k, v⟩ := f
          have hser : serJson (.obj ((k, v) :: l2))
              = '\x7b' :: (serFields ((k, v) :: l2) ++ ['\x7d']) := rfl
          obtain ⟨t2, hct2⟩ := serFields_head k v l2
          have hlen2 : (serFields ((k, v) :: l2)).length + 1 ≤ fuel := by
            rw [hser] at hlen
            simp only [List.length_cons, List.length_append, List.length_singleton] at hlen
            omega
          have harg : serJson (.obj ((k, v) :: l2)) ++ rest
              = '\x7b' :: '"' :: (t2 ++ '\x7d' :: rest) := by
            rw [hser, hct2]
            simp
          rw [harg, parseVal_objCons fuel '"' (t2 ++ '\x7d' :: rest) (by decide)]
          have hC := ihC ((k, v) :: l2) rest (by simp) hlen2
          rw [hct2, List.cons_append] at hC
          rw [hC]
    · intro l rest hne hlen
      cases l with
      | nil => exact absurd rfl hne
      | cons v l2 =>
        cases l2 with
        | nil =>
          have hser : serElems [v] = serJson v := by simp [serElems]
          rw [hser] at hlen ⊢
          have hA := ihA v (']' :: rest) (by omega) (by rfl)
          simp only [parseElems, hA]
        | cons v2 l3 =>
          have hser : serElems (v :: v2 :: l3) = serJson v ++ ',' :: serElems (v2 :: l3) := by
            simp [serElems]
          rw [hser] at hlen ⊢
          have hjpos : 0 < (serJson v).length := List.length_pos.mpr (serJson_ne_nil v)
          simp only [List.length_append, List.length_cons] at hlen
          have hlv : (serJson v).length ≤ fuel := by omega
          have hlen3 : (serElems (v2 :: l3)).length + 1 ≤ fuel := by omega
          have hA := ihA v (',' :: (serElems (v2 :: l3) ++ ']' :: rest)) hlv (by rfl)
          have hB := ihB (v2 :: l3) rest (by simp) hlen3
          have harg : (serJson v ++ ',' :: serElems (v2 :: l3)) ++ ']' :: rest
              = serJson v ++ (',' :: (serElems (v2 :: l3) ++ ']' :: rest)) := by
            simp
          rw [harg]
          simp only [parseElems, hA, hB]
    · intro l rest hne hlen
      cases l with
      | nil => exact absurd rfl hne
      | cons f l2 =>
        obtain ⟨k, v⟩ := f
        cases l2 with
        | nil =>
          have hser : serFields [(k, v)] = quoteStr k ++ ':' :: serJson v := by
            simp [serFields]
          rw [hser] at hlen ⊢
          simp only [quoteStr, List.length_append, List.length_cons] at hlen
          have hlv : (serJson v).length ≤ fuel := by omega
          have hA := ihA v ('\x7d' :: rest) hlv (by rfl)
          have harg : (quoteStr k ++ ':' :: serJson v) ++ '\x7d' :: rest
              = '"' :: (escapeList k.data ++ '"' :: (':' :: (serJson v ++ '\x7d' :: rest))) := by
            simp [quoteStr]
          rw [harg]
          simp only [parseFields, parseStringAux_quote, hA]
        | cons f2 l3 =>
          have hser : serFields ((k, v) :: f2 :: l3)
              = quoteStr k ++ ':' :: serJson v ++ ',' :: serFields (f2 :: l3) := by
            simp [serFields]
          rw [hser] at hlen ⊢
          have hjpos : 0 < (serJson v).length := List.length_pos.mpr (serJson_ne_nil v)
          simp only [quoteStr, List.length_append, List.length_cons] at hlen
          have hlv : (serJson v).length ≤ fuel := by omega
          have hlen3 : (serFields (f2 :: l3)).length + 1 ≤ fuel := by omega
          have hA := ihA v (',' :: (serFields (f2 :: l3) ++ '\x7d' :: rest)) hlv (by rfl)
          have hC := ihC (f2 :: l3) rest (by simp) hlen3
          have harg : (quoteStr k ++ ':' :: serJson v ++ ',' :: serFields (f2 :: l3))
                ++ '\x7d' :: rest
              = '"' :: (escapeList k.data ++ '"' :: (':' :: (serJson v
                  ++ ',' :: (serFields (f2 :: l3) ++ '\x7d' :: rest)))) := by
            simp [quoteStr]
          rw [harg]
          simp only [parseFields, parseStringAux_quote, hA, hC]

/-- The full codec round trip: `JSON.parse (JSON.stringify v)` recovers `v`
for every modelled JSON value. -/
theorem parseJson_serialize (v : Json) : parseJson (serialize v) = some v := by
  obtain ⟨c, t, hct, hws, -, -⟩ := serJson_head v
  have hdata : (serialize v).data = serJson v := rfl
  have hdrop : (serJson v).dropWhile isJsonWs = serJson v := by
    rw [hct, List.dropWhile_cons, hws]
    simp
  have hA := (parseSer_all ((serJson v).length + 1)).1 v [] (by omega) (by rfl)
  rw [List.append_nil] at hA
  unfold parseJson
  simp only [hdata, hdrop, hA, List.dropWhile_nil]
  simp

/-- Reading back the key just written returns the written value. -/
theorem storeSet_same (m : Store) (k v : String) : storeSet m k v k = some v := by
  simp [storeSet]

/-- Writing one key leaves every other key unchanged. -/
theorem storeSet_other (m : Store) (k v x : String) (h : x ≠ k) :
    storeSet m k v x = m x := by
  simp [storeSet, h]

/-- The key just removed reads as absent. -/
theorem storeRemove_same (m : Store) (k : String) : storeRemove m k k = none := by
  simp [storeRemove]

/-- Key derivation depends only on the stored prefix. -/
theorem getKey_pfx_congr (st1 st2 : ProviderState) (h : st1.pfx = st2.pfx)
    (key : Option String) : getKey st1 key = getKey st2 key := by
  unfold getKey
  rw [h]

/-- Distinct stored prefixes derive distinct storage keys for the same
caller-supplied key. -/
theorem getKey_ne (st1 st2 : ProviderState) (k : String) (hp : st1.pfx ≠ st2.pfx) :
    getKey st1 (some k) ≠ getKey st2 (some k) := by
  have hlen1 : (":" : String).length = 1 := rfl
  have hpos : ∀ s : String, s ≠ "" → 0 < s.length := by
    intro s hs
    have hd : s.data ≠ [] := fun hnil => hs (String.ext hnil)
    exact List.length_pos.mpr hd
  have hgk : ∀ st : ProviderState, getKey st (some k)
      = if k = "" then st.pfx else if st.pfx ≠ "" then st.pfx ++ ":" ++ k else k :=
    fun _ => rfl
  rw [hgk, hgk]
  by_cases hk : k = ""
  · simpa [hk] using hp
  · rw [if_neg hk, if_neg hk]
    by_cases h1 : st1.pfx = "" <;> by_cases h2 : st2.pfx = ""
    · exact absurd (h1.trans h2.symm) hp
    · rw [if_neg (fun hne => hne h1), if_pos h2]
      intro he
      have hl := congrArg String.length he
      rw [String.length_append, String.length_append, hlen1] at hl
      have := hpos _ h2
      omega
    · rw [if_pos h1, if_neg (fun hne => hne h2)]
      intro he
      have hl := congrArg String.length he
      rw [String.length_append, String.length_append, hlen1] at hl
      have := hpos _ h1
      omega
    · rw [if_pos h1, if_pos h2]
      intro he
      apply hp
      have hd := congrArg String.data he
      rw [String.data_append, String.data_append, String.data_append, String.data_append]
        at hd
      have hd2 := List.append_cancel_right hd
      have hd3 := List.append_cancel_right hd2
      exact String.ext hd3

/-- Decoding a freshly serialized value recovers it (the permissive-read
branch is not taken on well-formed stored values). -/
theorem deserialize_serialize (v : Json) : deserialize (some (serialize v)) = v := by
  simp [deserialize, parseJson_serialize]

/-- The raw value `getValue` decodes, by backend kind. -/
theorem adapterGetRaw_val (st : ProviderState) (w : World) (k : String) :
    (adapterGetRaw st w k).1 =
      match st.storeType with
      | .memory => st.memStore k
      | .localStorage => w.localStorage.data k
      | .sessionStorage => w.sessionStorage.data k := by
  cases h : st.storeType <;> simp [adapterGetRaw, h]

/-- `getValue` is decoding of the adapter read at the derived key. -/
theorem getValue_eq_deser (st : ProviderState) (w : World) (key : String) :
    getValue st w key = deserialize ((adapterGetRaw st w (getKey st (some key))).1) := rfl

/-- A successful `setValue` through one provider is invisible to `getValue`
through any provider with a different stored prefix, on any backend
combination. -/
theorem setValue_invisible (stA stB : ProviderState) (w w' : World) (stA' : ProviderState)
    (key : String) (v : Json) (hp : stA.pfx ≠ stB.pfx)
    (hset : setValue stA w key v = .ok (stA', w')) :
    getValue stB w' key = getValue stB w key := by
  have hkey : getKey stB (some key) ≠ getKey stA (some key) :=
    Ne.symm (getKey_ne stA stB key hp)
  unfold setValue adapterSetRaw at hset
  rw [getValue_eq_deser, getValue_eq_deser, adapterGetRaw_val, adapterGetRaw_val]
  cases hA : stA.storeType with
  | memory =>
    rw [hA] at hset
    simp only [Except.ok.injEq, Prod.mk.injEq] at hset
    obtain ⟨-, hw⟩ := hset
    subst hw
    rfl
  | localStorage =>
    rw [hA] at hset
    by_cases hthrow : w.localStorage.setThrows
    · rw [if_pos hthrow] at hset
      exact absurd hset (by simp)
    · rw [if_neg hthrow] at hset
      simp only [Except.ok.injEq, Prod.mk.injEq] at hset
      obtain ⟨-, hw⟩ := hset
      subst hw
      cases hB : stB.storeType with
      | memory => rfl
      | localStorage =>
        simp only []
        rw [storeSet_other _ _ _ _ hkey]
      | sessionStorage => rfl
  | sessionStorage =>
    rw [hA] at hset
    by_cases hthrow : w.sessionStorage.setThrows
    · rw [if_pos hthrow] at hset
      exact absurd hset (by simp)
    · rw [if_neg hthrow] at hset
      simp only [Except.ok.injEq, Prod.mk.injEq] at hset
      obtain ⟨-, hw⟩ := hset
      subst hw
      cases hB : stB.storeType with
      | memory => rfl
      | localStorage => rfl
      | sessionStorage =>
        simp only []
        rw [storeSet_other _ _ _ _ hkey]

/-- After a successful `removeValue(k)`, reading `k` decodes an absent
entry. -/
theorem removeValue_removes (st st' : ProviderState) (w w' : World) (key : String)
    (h : removeValue st w key = .ok (st', w')) :
    getValue st' w' key = .null := by
  unfold removeValue adapterRemove at h
  rw [getValue_eq_deser, adapterGetRaw_val]
  cases hst : st.storeType with
  | memory =>
    rw [hst] at h
    simp only [Except.ok.injEq, Prod.mk.injEq] at h
    obtain ⟨hst', hw⟩ := h
    subst hst'
    subst hw
    simp only []
    have hkk : getKey ⟨StoreType.memory, st.pfx, st.isServer,
        storeRemove st.memStore (getKey st (some key))⟩ (some key)
        = getKey st (some key) :=
      getKey_pfx_congr ⟨StoreType.memory, st.pfx, st.isServer,
        storeRemove st.memStore (getKey st (some key))⟩ st rfl (some key)
    rw [hkk, storeRemove_same]
    rfl
  | localStorage =>
    rw [hst] at h
    by_cases hthrow : w.localStorage.removeThrows
    · rw [if_pos hthrow] at h
      exact absurd h (by simp)
    · rw [if_neg hthrow] at h
      simp only [Except.ok.injEq, Prod.mk.injEq] at h
      obtain ⟨hst', hw⟩ := h
      subst hst'
      subst hw
      rw [hst]
      simp only []
      rw [storeRemove_same]
      rfl
  | sessionStorage =>
    rw [hst] at h
    by_cases hthrow : w.sessionStorage.removeThrows
    · rw [if_pos hthrow] at h
      exact absurd h (by simp)
    · rw [if_neg hthrow] at h
      simp only [Except.ok.injEq, Prod.mk.injEq] at h
      obtain ⟨hst', hw⟩ := h
      subst hst'
      subst hw
      rw [hst]
      simp only []
      rw [storeRemove_same]
      rfl

/-- Whatever backend construction ends up selecting, a successfully
constructed provider stores the trimmed prefix and a fresh empty memory
map. -/
theorem construct_ok_inv (env : Env) (t : String) (p : String) (st : ProviderState)
    (w : World) (h : construct env t (.str p) = .ok (st, w)) :
    st.pfx = jsTrim p ∧ st.memStore = emptyStore := by
  cases hpt : parseStoreType t with
  | none =>
    rw [construct, hpt] at h
    exact absurd h (by simp)
  | some st0 =>
    simp only [construct, hpt] at h
    repeat' split at h
    all_goals simp only [Except.ok.injEq, Prod.mk.injEq] at h
    all_goals obtain ⟨h1, h2⟩ := h
    all_goals rw [← h1]
    all_goals exact ⟨rfl, rfl⟩

/-- On the memory backend, `setValue` always succeeds, leaves the world
untouched, and writes the serialized value into the instance's own map. -/
theorem setValue_memory_eq (st : ProviderState) (hmem : st.storeType = .memory)
    (w : World) (key : String) (v : Json) :
    setValue st w key v = .ok (⟨.memory, st.pfx, st.isServer,
      storeSet st.memStore (getKey st (some key)) (serialize v)⟩, w) := by
  unfold setValue adapterSetRaw
  rw [hmem]

/-- On the memory backend, `getValue` decodes the instance's own map. -/
theorem getValue_memory (st : ProviderState) (hmem : st.storeType = .memory)
    (w : World) (key : String) :
    getValue st w key = deserialize (st.memStore (getKey st (some key))) := by
  rw [getValue_eq_deser, adapterGetRaw_val, hmem]

/-- Reading back a key just written through `setValue` (on whatever backend
the write succeeded) decodes to the written value. -/
theorem setValue_getValue (st st' : ProviderState) (w w' : World) (key : String)
    (v : Json) (hset : setValue st w key v = .ok (st', w')) :
    getValue st' w' key = v := by
  unfold setValue adapterSetRaw at hset
  rw [getValue_eq_deser, adapterGetRaw_val]
  cases hst : st.storeType with
  | memory =>
    rw [hst] at hset
    simp only [Except.ok.injEq, Prod.mk.injEq] at hset
    obtain ⟨h1, h2⟩ := hset
    subst h1
    subst h2
    simp only []
    have hkk : getKey ⟨StoreType.memory, st.pfx, st.isServer,
        storeSet st.memStore (getKey st (some key)) (serialize v)⟩ (some key)
        = getKey st (some key) :=
      getKey_pfx_congr ⟨StoreType.memory, st.pfx, st.isServer,
        storeSet st.memStore (getKey st (some key)) (serialize v)⟩ st rfl (some key)
    rw [hkk, storeSet_same, deserialize_serialize]
  | localStorage =>
    rw [hst] at hset
    by_cases hthrow : w.localStorage.setThrows
    · rw [if_pos hthrow] at hset
      exact absurd hset (by simp)
    · rw [if_neg hthrow] at hset
      simp only [Except.ok.injEq, Prod.mk.injEq] at hset
      obtain ⟨h1, h2⟩ := hset
      subst h1
      subst h2
      rw [hst]
      simp only []
      rw [storeSet_same, deserialize_serialize]
  | sessionStorage =>
    rw [hst] at hset
    by_cases hthrow : w.sessionStorage.setThrows
    · rw [if_pos hthrow] at hset
      exact absurd hset (by simp)
    · rw [if_neg hthrow] at hset
      simp only [Except.ok.injEq, Prod.mk.injEq] at hset
      obtain ⟨h1, h2⟩ := hset
      subst h1
      subst h2
      rw [hst]
      simp only []
      rw [storeSet_same, deserialize_serialize]

/-- A recognized storage type makes the constructor infallible, whatever the
environment and the persistent stores' behavior. -/
theorem construct_not_error (env : Env) (t : String) (q : String) (st0 : StoreType)
    (hpt : parseStoreType t = some st0) (e : ConstructError) :
    construct env t (.str q) ≠ .error e := by
  simp only [construct, hpt]
  intro h
  repeat' split at h
  all_goals simp at h

/-- `parseStoreType` fails exactly on unrecognized storage type strings. -/
theorem parseStoreType_none_iff (t : String) :
    parseStoreType t = none ↔
      ¬ t ∈ (["memory", "localStorage", "sessionStorage"] : List String) := by
  unfold parseStoreType
  split_ifs with h1 h2 h3 <;> simp_all

/-- `dropWhile` jumps over a satisfying block. -/
theorem dropWhile_all (p : Char → Bool) (l x : List Char)
    (h : ∀ c ∈ l, p c = true) :
    List.dropWhile p (l ++ x) = List.dropWhile p x := by
  induction l with
  | nil => rfl
  | cons c t ih =>
    rw [List.cons_append, List.dropWhile_cons, if_pos (h c (List.mem_cons_self c t))]
    exact ih (fun x hx => h x (List.mem_cons_of_mem c hx))

/-- Trimming ignores fully-whitespace surroundings. -/
theorem jsTrimList_sandwich (l r m : List Char)
    (hl : ∀ c ∈ l, jsWhitespace c = true) (hr : ∀ c ∈ r, jsWhitespace c = true) :
    jsTrimList (l ++ m ++ r) = jsTrimList m := by
  unfold jsTrimList
  rw [List.append_assoc, dropWhile_all _ l _ hl]
  cases hm : List.dropWhile jsWhitespace m with
  | nil =>
    have hmw : ∀ c ∈ m, jsWhitespace c = true := List.dropWhile_eq_nil_iff.mp hm
    rw [dropWhile_all _ m _ hmw, List.dropWhile_eq_nil_iff.mpr hr]
  | cons c t =>
    have hsplit : List.dropWhile jsWhitespace (m ++ r) = (c :: t) ++ r := by
      rw [List.dropWhile_append, hm]
      simp
    rw [hsplit, List.reverse_append]
    rw [dropWhile_all _ r.reverse _ (fun x hx => hr x (List.mem_reverse.mp hx))]

/-- C1: Round-trip law: on a provider whose active backend is memory,
`setValue(k, v)` followed by `getValue(k)` succeeds and returns a value equal
to `v`, for every modelled JSON-serializable value. -/
theorem C1_roundTrip (st : ProviderState) (w : World) (key : String) (v : Json)
    (hmem : st.storeType = .memory) :
    ∃ st' w', setValue st w key v = .ok (st', w') ∧ getValue st' w' key = v := by
  have hset := setValue_memory_eq st hmem w key v
  exact ⟨_, _, hset, setValue_getValue _ _ _ _ _ _ hset⟩

/-- C1 witness: the round trip evaluated on a concrete memory provider. -/
theorem C1_roundTrip_witness :
    ∃ st' w', setValue memProvider okWorld "a" (.str "hi") = .ok (st', w') ∧
      getValue st' w' "a" = .str "hi" :=
  C1_roundTrip memProvider okWorld "a" (.str "hi") rfl

/-- C2 counterexample: two providers constructed with the different prefix
strings `"p"` and `" p"` (which trim to the same stored prefix) over the same
localStorage: a `setValue` through the first is observable through
`getValue` on the second, so the claim as stated (any two different prefix
strings isolate) fails. -/
theorem C2_prefix_isolation_cex :
    ("p" : String) ≠ " p" ∧
    ∃ stA w1 stB w2 stA' w3,
      construct okEnv "localStorage" (.str "p") = .ok (stA, w1) ∧
      construct { okEnv with world := w1 } "localStorage" (.str " p") = .ok (stB, w2) ∧
      setValue stA w2 "x" (.bool true) = .ok (stA', w3) ∧
      getValue stB w2 "x" = .null ∧
      getValue stB w3 "x" = .bool true :=
  ⟨by decide, _, _, _, _, _, _, rfl, rfl, rfl, rfl, rfl⟩

/-- C2 (amended): two providers constructed with prefix strings that remain
different after trimming, sharing the same underlying stores, never observe
each other's writes: a successful `setValue` through one leaves `getValue`
through the other unchanged. -/
theorem C2_prefix_isolation_amended (env1 env2 : Env) (t1 t2 p1 p2 : String)
    (stA stB stA' : ProviderState) (w1 w2 w w' : World) (key : String) (v : Json)
    (h1 : construct env1 t1 (.str p1) = .ok (stA, w1))
    (h2 : construct env2 t2 (.str p2) = .ok (stB, w2))
    (hp : jsTrim p1 ≠ jsTrim p2)
    (hset : setValue stA w key v = .ok (stA', w')) :
    getValue stB w' key = getValue stB w key := by
  obtain ⟨hpa, -⟩ := construct_ok_inv env1 t1 p1 stA w1 h1
  obtain ⟨hpb, -⟩ := construct_ok_inv env2 t2 p2 stB w2 h2
  exact setValue_invisible stA stB w w' stA' key v (by rw [hpa, hpb]; exact hp) hset

/-- C2 (amended) witness: the amended isolation evaluated on two concrete
providers with prefixes `"a"` and `"b"` over the same localStorage. -/
theorem C2_prefix_isolation_amended_witness :
    ∃ stA w1 stB w2 stA' w3,
      construct okEnv "localStorage" (.str "a") = .ok (stA, w1) ∧
      construct okEnv "localStorage" (.str "b") = .ok (stB, w2) ∧
      setValue stA w2 "x" (.bool true) = .ok (stA', w3) ∧
      getValue stB w3 "x" = getValue stB w2 "x" :=
  ⟨_, _, _, _, _, _, rfl, rfl, rfl,
    C2_prefix_isolation_amended okEnv okEnv "localStorage" "localStorage" "a" "b"
      _ _ _ _ _ _ _ "x" (.bool true) rfl rfl (by decide) rfl⟩

/-- C3: Fallback invariant: when the requested persistent backend's probe
write throws, construction completes with the memory backend active, and on
the resulting provider every `setValue` succeeds without throwing (leaving
the shared world untouched and writing the instance's own in-memory map) and
every `getValue` is a total read of that map. -/
theorem C3_fallback_invariant (env : Env) (p : String) (t : String)
    (hth : (t = "localStorage" ∧ env.world.localStorage.setThrows = true) ∨
           (t = "sessionStorage" ∧ env.world.sessionStorage.setThrows = true)) :
    ∃ st w1, construct env t (.str p) = .ok (st, w1) ∧ st.storeType = .memory ∧
      (∀ (w : World) (key : String) (v : Json),
        setValue st w key v = .ok (⟨.memory, st.pfx, st.isServer,
          storeSet st.memStore (getKey st (some key)) (serialize v)⟩, w)) ∧
      (∀ (w : World) (key : String),
        getValue st w key = deserialize (st.memStore (getKey st (some key)))) := by
  have hmk : ∀ st : ProviderState, st.storeType = .memory →
      (∀ (w : World) (key : String) (v : Json),
        setValue st w key v = .ok (⟨.memory, st.pfx, st.isServer,
          storeSet st.memStore (getKey st (some key)) (serialize v)⟩, w)) ∧
      (∀ (w : World) (key : String),
        getValue st w key = deserialize (st.memStore (getKey st (some key)))) :=
    fun st hmem => ⟨fun w key v => setValue_memory_eq st hmem w key v,
      fun w key => getValue_memory st hmem w key⟩
  rcases hth with ⟨rfl, hthrow⟩ | ⟨rfl, hthrow⟩
  · have hpt : parseStoreType "localStorage" = some StoreType.localStorage := rfl
    cases hsrv : env.isServer with
    | true =>
      refine ⟨⟨.memory, jsTrim p, true, emptyStore⟩, env.world, ?_, rfl,
        (hmk _ rfl).1, (hmk _ rfl).2⟩
      simp [construct, hpt, hsrv,
        show (StoreType.localStorage == StoreType.memory) = false from rfl]
    | false =>
      refine ⟨⟨.memory, jsTrim p, false, emptyStore⟩,
        { env.world with localStorage := probeEffect env.world.localStorage }, ?_, rfl,
        (hmk _ rfl).1, (hmk _ rfl).2⟩
      simp [construct, hpt, hsrv, canUseWebStorage, hthrow,
        show (StoreType.localStorage == StoreType.memory) = false from rfl]
  · have hpt : parseStoreType "sessionStorage" = some StoreType.sessionStorage := rfl
    cases hsrv : env.isServer with
    | true =>
      refine ⟨⟨.memory, jsTrim p, true, emptyStore⟩, env.world, ?_, rfl,
        (hmk _ rfl).1, (hmk _ rfl).2⟩
      simp [construct, hpt, hsrv,
        show (StoreType.sessionStorage == StoreType.memory) = false from rfl]
    | false =>
      refine ⟨⟨.memory, jsTrim p, false, emptyStore⟩,
        { env.world with sessionStorage := probeEffect env.world.sessionStorage }, ?_, rfl,
        (hmk _ rfl).1, (hmk _ rfl).2⟩
      simp [construct, hpt, hsrv, canUseWebStorage, hthrow,
        show (StoreType.sessionStorage == StoreType.memory) = false from rfl]

/-- C3 witness: the fallback invariant instantiated at a concrete environment
whose localStorage rejects the probe write. -/
theorem C3_fallback_invariant_witness :
    ∃ st w1, construct brokenEnv "localStorage" (.str "app") = .ok (st, w1) ∧
      st.storeType = .memory ∧
      (∀ (w : World) (key : String) (v : Json),
        setValue st w key v = .ok (⟨.memory, st.pfx, st.isServer,
          storeSet st.memStore (getKey st (some key)) (serialize v)⟩, w)) ∧
      (∀ (w : World) (key : String),
        getValue st w key = deserialize (st.memStore (getKey st (some key)))) :=
  C3_fallback_invariant brokenEnv "app" "localStorage" (Or.inl ⟨rfl, rfl⟩)

/-- C4: Construction raises-iff: the constructor throws exactly when the
supplied storage type is unrecognized or the supplied prefix is not a
string; for every recognized storage type and string prefix it returns
normally, whatever the environment and the persistent stores' behavior. -/
theorem C4_construct_throws_iff (env : Env) (t : String) (p : PfxArg) :
    (∃ e, construct env t p = .error e) ↔
      (¬ t ∈ (["memory", "localStorage", "sessionStorage"] : List String) ∨
        p = .nonString) := by
  constructor
  · rintro ⟨e, he⟩
    by_cases ht : t ∈ (["memory", "localStorage", "sessionStorage"] : List String)
    · right
      cases p with
      | nonString => rfl
      | str q =>
        exfalso
        cases hpt : parseStoreType t with
        | none => exact (parseStoreType_none_iff t).mp hpt ht
        | some st0 => exact construct_not_error env t q st0 hpt e he
    · left
      exact ht
  · intro h
    rcases h with hnot | hns
    · refine ⟨.unsupportedType, ?_⟩
      have hpt : parseStoreType t = none := (parseStoreType_none_iff t).mpr hnot
      simp [construct, hpt]
    · subst hns
      cases hpt : parseStoreType t with
      | none => exact ⟨.unsupportedType, by simp [construct, hpt]⟩
      | some st0 => exact ⟨.pfxNotString, by simp [construct, hpt]⟩

/-- C5 counterexample: with the non-empty prefix `"t"` and the given (empty)
key `""`, the derived key is the bare prefix `"t"`, not `"t" ++ ":" ++ ""` as
the claim requires for every given key: the falsy empty key is treated like
an absent key. -/
theorem C5_getKey_cex :
    getKey memProvider (some "") = memProvider.pfx ∧
    getKey memProvider (some "") ≠ memProvider.pfx ++ ":" ++ "" :=
  ⟨rfl, by decide⟩

/-- C5 (amended): the derived key is the prefix when no key or the empty key
is given; for every non-empty given key it is `prefix:key` when the stored
prefix is non-empty, and the key unchanged when the prefix is empty. -/
theorem C5_getKey_amended (st : ProviderState) (k : String) :
    getKey st none = st.pfx ∧
    getKey st (some "") = st.pfx ∧
    (k ≠ "" → st.pfx ≠ "" → getKey st (some k) = st.pfx ++ ":" ++ k) ∧
    (k ≠ "" → st.pfx = "" → getKey st (some k) = k) := by
  have hgk : getKey st (some k)
      = if k = "" then st.pfx else if st.pfx ≠ "" then st.pfx ++ ":" ++ k else k := rfl
  refine ⟨rfl, rfl, ?_, ?_⟩
  · intro hk hp
    rw [hgk, if_neg hk, if_pos hp]
  · intro hk hp
    rw [hgk, if_neg hk, if_neg (fun h => h hp)]

/-- C5 (amended) witness: key derivation evaluated on a concrete provider. -/
theorem C5_getKey_amended_witness :
    getKey memProvider (some "x") = memProvider.pfx ++ ":" ++ "x" :=
  (C5_getKey_amended memProvider "x").2.2.1 (by decide) (by decide)

/-- C6: Non-JSON tolerance: when the derived key holds a raw string that is
not valid JSON, `getValue` returns that raw string unchanged (and, being a
total function of the state, does not throw). -/
theorem C6_nonJson_tolerance (st : ProviderState) (w : World) (key raw : String)
    (hraw : (adapterGetRaw st w (getKey st (some key))).1 = some raw)
    (hnj : parseJson raw = none) :
    getValue st w key = .str raw := by
  rw [getValue_eq_deser, hraw]
  simp [deserialize, hnj]

/-- C6 witness: a provider whose store holds the literal text `"hello"`
(not valid JSON) under the derived key returns it unchanged. -/
theorem C6_nonJson_tolerance_witness :
    getValue rawProvider okWorld "k" = .str "hello" :=
  C6_nonJson_tolerance rawProvider okWorld "k" "hello" rfl rfl

/-- C7: Miss law: a key whose derived entry is absent reads as `null`, and a
key just removed through `removeValue` (on whatever backend the removal
succeeded) reads as `null`; `getValue` is total, so neither case throws. -/
theorem C7_missLaw (st : ProviderState) (w : World) (key : String) :
    ((adapterGetRaw st w (getKey st (some key))).1 = none →
       getValue st w key = .null) ∧
    (∀ st' w', removeValue st w key = .ok (st', w') → getValue st' w' key = .null) := by
  constructor
  · intro h
    rw [getValue_eq_deser, h]
    rfl
  · intro st' w' h
    exact removeValue_removes st st' w w' key h

/-- C7 witness: a never-set key on a concrete empty provider reads as null,
and a concrete removal leaves the key reading as null. -/
theorem C7_missLaw_witness :
    getValue memProvider okWorld "k" = .null ∧
    ∃ st' w', removeValue memProvider okWorld "k" = .ok (st', w') ∧
      getValue st' w' "k" = .null :=
  ⟨(C7_missLaw memProvider okWorld "k").1 rfl,
   ⟨_, _, rfl, (C7_missLaw memProvider okWorld "k").2 _ _ rfl⟩⟩

/-- C8: Prefix trimming: a successfully constructed provider stores the given
prefix trimmed, so two providers whose prefix arguments differ only in
surrounding whitespace around the same core (including whitespace-only
versus empty) derive identical storage keys for every input key. -/
theorem C8_trim (env1 env2 : Env) (t1 t2 p1 p2 core : String)
    (stA stB : ProviderState) (w1 w2 : World)
    (h1 : construct env1 t1 (.str p1) = .ok (stA, w1))
    (h2 : construct env2 t2 (.str p2) = .ok (stB, w2))
    (l1 r1 l2 r2 : List Char)
    (hl1 : ∀ c ∈ l1, jsWhitespace c = true) (hr1 : ∀ c ∈ r1, jsWhitespace c = true)
    (hl2 : ∀ c ∈ l2, jsWhitespace c = true) (hr2 : ∀ c ∈ r2, jsWhitespace c = true)
    (hp1 : p1.data = l1 ++ core.data ++ r1) (hp2 : p2.data = l2 ++ core.data ++ r2) :
    stA.pfx = jsTrim p1 ∧ stB.pfx = jsTrim p2 ∧
    ∀ key : Option String, getKey stA key = getKey stB key := by
  obtain ⟨hpa, -⟩ := construct_ok_inv env1 t1 p1 stA w1 h1
  obtain ⟨hpb, -⟩ := construct_ok_inv env2 t2 p2 stB w2 h2
  have htrim : jsTrim p1 = jsTrim p2 := by
    unfold jsTrim
    exact congrArg String.mk
      (by rw [hp1, hp2, jsTrimList_sandwich _ _ _ hl1 hr1,
        jsTrimList_sandwich _ _ _ hl2 hr2])
  exact ⟨hpa, hpb, fun key => getKey_pfx_congr stA stB (by rw [hpa, hpb, htrim]) key⟩

/-- C8 witness: a whitespace-only prefix and the empty prefix produce
providers deriving identical keys. -/
theorem C8_trim_witness :
    ∃ stA w1 stB w2,
      construct okEnv "memory" (.str " ") = .ok (stA, w1) ∧
      construct okEnv "memory" (.str "") = .ok (stB, w2) ∧
      ∀ key : Option String, getKey stA key = getKey stB key := by
  refine ⟨_, _, _, _, rfl, rfl, ?_⟩
  exact (C8_trim okEnv okEnv "memory" "memory" " " "" "" _ _ _ _ rfl rfl
    [' '] [] [] [] (by decide) (by decide) (by decide) (by decide) rfl rfl).2.2

/-- C9: a stored null is indistinguishable from a miss: after a successful
`setValue(k, null)`, `getValue(k)` returns `null`, the same result
`deserialize` gives an absent entry. -/
theorem C9_null_miss (st st' : ProviderState) (w w' : World) (key : String)
    (hset : setValue st w key .null = .ok (st', w')) :
    getValue st' w' key = .null ∧ getValue st' w' key = deserialize none := by
  have h := setValue_getValue st st' w w' key .null hset
  exact ⟨h, h⟩

/-- C9 witness: storing null on a concrete memory provider and reading it
back yields null. -/
theorem C9_null_miss_witness :
    ∃ st' w', setValue memProvider okWorld "a" Json.null = .ok (st', w') ∧
      getValue st' w' "a" = Json.null :=
  ⟨_, _, rfl, (C9_null_miss memProvider _ okWorld _ "a" rfl).1⟩

/-- C10: `getValue` is read-only: in state-passing form it returns the
instance and the world unchanged — the key-to-raw-string mappings of every
backend are untouched by a read. -/
theorem C10_getValue_readOnly (st : ProviderState) (w : World) (key : String) :
    (getValueS st w key).2.1 = st ∧ (getValueS st w key).2.2 = w := by
  cases h : st.storeType <;> simp [getValueS, adapterGetRaw, h]
